import Mathlib

/-!
Verification of the CSC469 Hoard-style parallel memory allocator
(`A2/allocators/submit/malloc.c`) against its natural-language specification.

The C source is shallowly embedded: pure helpers become Lean functions,
the stateful superblock operations become explicit state-passing functions
on a `Superblock` record, and the intrusive free list (stored inside the
freed blocks themselves) is modelled by a `data : Int → Int` field giving
the word stored at the head of each block.  All machine integers stay far
below their width bounds in every state considered here (indices are below
one page worth of blocks), so `Nat`/`Int` model them directly.
-/

namespace Hoard

-- Hoard parameters (the #define constants at the top of malloc.c).
abbrev ALLOC_HOARD_FULLNESS_GROUPS : Nat := 4
abbrev ALLOC_HOARD_SIZE_CLASS_BASE : Nat := 2
abbrev ALLOC_HOARD_SIZE_CLASS_MIN : Nat := 2
abbrev ALLOC_HOARD_HEAP_CPU_FACTOR : Nat := 2

-- enum E_BLOCK { BLOCK_INVALID = -1 }; blockptr_t is int32_t.
def BLOCK_INVALID : Int := -1

/-- The loop of `util_sizeclass`: `while(x >= BASE) { x /= BASE; sizeunit *= BASE;
sizecls += 1; }`, returning the final `(sizeunit, sizecls)`. -/
def sizeclass_loop (x sizeunit sizecls : Nat) : Nat × Nat :=
  if ALLOC_HOARD_SIZE_CLASS_BASE ≤ x then
    sizeclass_loop (x / ALLOC_HOARD_SIZE_CLASS_BASE)
      (sizeunit * ALLOC_HOARD_SIZE_CLASS_BASE) (sizecls + 1)
  else (sizeunit, sizecls)
termination_by x
decreasing_by
  simp only [ALLOC_HOARD_SIZE_CLASS_BASE] at *
  omega

/-- Embedding of `util_sizeclass` from malloc.c: run the halving loop, bump the
class when the size is not an exact multiple of the final size unit, and clamp
to `ALLOC_HOARD_SIZE_CLASS_MIN`. -/
def util_sizeclass (size : Nat) : Nat :=
  let r := sizeclass_loop size 1 0
  let sizecls := if size % r.1 ≠ 0 then r.2 + 1 else r.2
  if sizecls < ALLOC_HOARD_SIZE_CLASS_MIN then ALLOC_HOARD_SIZE_CLASS_MIN else sizecls

/-- The loop in `superblock_init` computing `block_size`: start at 1 and
multiply by the base `size_class` times. -/
def superblock_blocksize : Nat → Nat
  | 0 => 1
  | n + 1 => superblock_blocksize n * ALLOC_HOARD_SIZE_CLASS_BASE

theorem sizeclass_loop_step (x u c : Nat) (h : 2 ≤ x) :
    sizeclass_loop x u c = sizeclass_loop (x / 2) (u * 2) (c + 1) := by
  rw [sizeclass_loop, if_pos (show ALLOC_HOARD_SIZE_CLASS_BASE ≤ x from h)]

theorem sizeclass_loop_base (x u c : Nat) (h : x < 2) :
    sizeclass_loop x u c = (u, c) := by
  have hn : ¬ ALLOC_HOARD_SIZE_CLASS_BASE ≤ x := by
    intro hc
    have hc2 : 2 ≤ x := hc
    omega
  rw [sizeclass_loop, if_neg hn]

theorem sizeclass_loop_spec : ∀ x : Nat, 1 ≤ x → ∀ u c : Nat, ∃ k : Nat,
    sizeclass_loop x u c = (u * 2 ^ k, c + k) ∧ 2 ^ k ≤ x ∧ x < 2 ^ (k + 1) := by
  intro x
  induction x using Nat.strong_induction_on with
  | _ x ih =>
    intro hx u c
    by_cases h2 : 2 ≤ x
    · rw [sizeclass_loop_step x u c h2]
      have hlt : x / 2 < x := Nat.div_lt_self (by omega) (by omega)
      have hd1 : 1 ≤ x / 2 := by omega
      obtain ⟨k, hk, hlo, hhi⟩ := ih _ hlt hd1 (u * 2) (c + 1)
      refine ⟨k + 1, ?_, ?_, ?_⟩
      · rw [hk]
        refine Prod.ext ?_ ?_
        · show u * 2 * 2 ^ k = u * 2 ^ (k + 1)
          ring
        · show c + 1 + k = c + (k + 1)
          omega
      · have : 2 ^ (k + 1) = 2 * 2 ^ k := by ring
        rw [this]
        omega
      · have : 2 ^ (k + 1 + 1) = 2 * 2 ^ (k + 1) := by ring
        rw [this]
        omega
    · rw [sizeclass_loop_base x u c (by omega)]
      have hx1 : x = 1 := by omega
      subst hx1
      exact ⟨0, by simp, by simp, by norm_num⟩

/-- Characterization of `util_sizeclass` on positive sizes: it returns the
least class that is at least the minimum class and whose power-of-two block
size covers the request. -/
theorem util_sizeclass_minimal (s : Nat) (hs : 0 < s) :
    s ≤ 2 ^ util_sizeclass s ∧ 2 ≤ util_sizeclass s ∧
    ∀ d : Nat, 2 ≤ d → s ≤ 2 ^ d → util_sizeclass s ≤ d := by
  obtain ⟨k, hk, hlo, hhi⟩ := sizeclass_loop_spec s hs 1 0
  rw [one_mul] at hk
  rw [zero_add] at hk
  have hmain : util_sizeclass s =
      if (if s % 2 ^ k ≠ 0 then k + 1 else k) < 2 then 2
      else (if s % 2 ^ k ≠ 0 then k + 1 else k) := by
    unfold util_sizeclass
    rw [hk]
  by_cases hrem : s % 2 ^ k = 0
  · -- exact power: s = 2 ^ k
    have hdvd : 2 ^ k ∣ s := Nat.dvd_of_mod_eq_zero hrem
    obtain ⟨m, hm⟩ := hdvd
    have hm1 : m = 1 := by
      have hpow : 2 ^ (k + 1) = 2 ^ k * 2 := by ring
      have hmlt : 2 ^ k * m < 2 ^ k * 2 := by
        rw [← hm, ← hpow]
        exact hhi
      have hm2 : m < 2 := Nat.lt_of_mul_lt_mul_left hmlt
      have hm0 : m ≠ 0 := by
        intro h0
        rw [h0, mul_zero] at hm
        omega
      omega
    have hs2k : s = 2 ^ k := by rw [hm, hm1, mul_one]
    rw [hmain, if_neg (by omega : ¬ s % 2 ^ k ≠ 0)]
    by_cases hk2 : k < 2
    · rw [if_pos hk2]
      refine ⟨?_, by omega, ?_⟩
      · calc s = 2 ^ k := hs2k
          _ ≤ 2 ^ 2 := Nat.pow_le_pow_right (by omega) (by omega)
      · intro d hd _
        exact hd
    · rw [if_neg hk2]
      refine ⟨le_of_eq hs2k, by omega, ?_⟩
      intro d _ hsd
      have : 2 ^ k ≤ 2 ^ d := by omega
      exact (Nat.pow_le_pow_iff_right (by omega)).mp this
  · -- strict: 2 ^ k < s, class is k + 1
    have hslt : 2 ^ k < s := by
      rcases Nat.lt_or_ge (2 ^ k) s with h | h
      · exact h
      · have : s = 2 ^ k := by omega
        rw [this] at hrem
        simp at hrem
    rw [hmain, if_pos hrem]
    by_cases hk2 : k + 1 < 2
    · rw [if_pos hk2]
      refine ⟨?_, by omega, ?_⟩
      · have hk0 : k = 0 := by omega
        rw [hk0] at hhi
        omega
      · intro d hd _
        exact hd
    · rw [if_neg hk2]
      refine ⟨by omega, by omega, ?_⟩
      intro d _ hsd
      have hklt : 2 ^ k < 2 ^ d := by omega
      have : k < d := (Nat.pow_lt_pow_iff_right (by omega)).mp hklt
      omega

theorem util_sizeclass_five : util_sizeclass 5 = 3 := by
  have h5 : sizeclass_loop 5 1 0 = (4, 2) := by
    rw [sizeclass_loop_step 5 1 0 (by omega)]
    norm_num
    rw [sizeclass_loop_step 2 2 1 (by omega)]
    norm_num
    exact sizeclass_loop_base 1 4 2 (by omega)
  simp [util_sizeclass, h5, ALLOC_HOARD_SIZE_CLASS_MIN]

theorem util_sizeclass_one : util_sizeclass 1 = 2 := by
  have h1 : sizeclass_loop 1 1 0 = (1, 0) := sizeclass_loop_base 1 1 0 (by omega)
  simp [util_sizeclass, h1, ALLOC_HOARD_SIZE_CLASS_MIN]

/-- C1: for every requested size `s > 0` the size-class mapper returns the
minimal class `c` with `2 ^ c ≥ s` and `c ≥ 2`, hence it is monotonic in `s`;
in particular size 5 maps to class 3 (block size 8) and size 1 maps to
class 2 (block size 4). -/
theorem util_sizeclass_correct (s : Nat) (hs : 0 < s) :
    s ≤ 2 ^ util_sizeclass s ∧
    2 ≤ util_sizeclass s ∧
    (∀ d : Nat, 2 ≤ d → s ≤ 2 ^ d → util_sizeclass s ≤ d) ∧
    (∀ t : Nat, s ≤ t → util_sizeclass s ≤ util_sizeclass t) ∧
    util_sizeclass 5 = 3 ∧ superblock_blocksize 3 = 8 ∧
    util_sizeclass 1 = 2 ∧ superblock_blocksize 2 = 4 := by
  obtain ⟨h1, h2, h3⟩ := util_sizeclass_minimal s hs
  refine ⟨h1, h2, h3, ?_, ?_, ?_, ?_, ?_⟩
  · intro t hst
    obtain ⟨g1, g2, _⟩ := util_sizeclass_minimal t (by omega)
    exact h3 _ g2 (le_trans hst g1)
  · exact util_sizeclass_five
  · decide
  · exact util_sizeclass_one
  · decide

/-- Witness for C1 at the concrete size 5. -/
theorem util_sizeclass_correct_witness :
    0 < 5 ∧
    (5 ≤ 2 ^ util_sizeclass 5 ∧
     2 ≤ util_sizeclass 5 ∧
     (∀ d : Nat, 2 ≤ d → 5 ≤ 2 ^ d → util_sizeclass 5 ≤ d) ∧
     (∀ t : Nat, 5 ≤ t → util_sizeclass 5 ≤ util_sizeclass t) ∧
     util_sizeclass 5 = 3 ∧ superblock_blocksize 3 = 8 ∧
     util_sizeclass 1 = 2 ∧ superblock_blocksize 2 = 4) :=
  ⟨by omega, util_sizeclass_correct 5 (by omega)⟩

/-- The fields of `struct SUPERBLOCK_T` that the block-management code reads
and writes.  `data blk` is the `blockptr_t` word stored at the start of block
`blk`'s storage (`superblock_block_data`), which the intrusive free list
reuses to hold the next free index while the block is free.  The `prev`/`next`
bin links and the `heap` back-reference are kept outside this record: the heap
side is modelled by `SBState.mem_used` below. -/
structure Superblock where
  size_class : Nat
  block_size : Nat
  block_count : Nat
  block_used : Nat
  next_block : Int
  next_free : Int
  data : Int → Int

/-- A superblock together with its owning heap's `mem_used` statistic, the
only heap field the block-level operations touch. -/
structure SBState where
  sb : Superblock
  mem_used : Nat

/-- Embedding of `superblock_init`: block size is `base ^ size_class`
(computed by the multiplication loop), capacity is the page remainder after
the header divided by the block size, no block used, watermark at 0, empty
free list.  The block storage (`data0`) is whatever was in the page already:
`superblock_init` does not touch it. -/
def superblock_init (pagesize header_size : Nat) (data0 : Int → Int)
    (size_class : Nat) : Superblock :=
  { size_class := size_class
    block_size := superblock_blocksize size_class
    block_count := (pagesize - header_size) / superblock_blocksize size_class
    block_used := 0
    next_block := 0
    next_free := BLOCK_INVALID
    data := data0 }

/-- Embedding of `superblock_freelist_push`: store the old free-list head in
the freed block's storage and make the block the new head. -/
def superblock_freelist_push (sb : Superblock) (blk : Int) : Superblock :=
  { sb with
    data := fun i => if i = blk then sb.next_free else sb.data i
    next_free := blk }

/-- Embedding of `superblock_freelist_pop`: return `BLOCK_INVALID` on an empty
free list, otherwise return the head and replace it by the index stored inside
the head block. -/
def superblock_freelist_pop (sb : Superblock) : Int × Superblock :=
  if sb.next_free = BLOCK_INVALID then (BLOCK_INVALID, sb)
  else (sb.next_free, { sb with next_free := sb.data sb.next_free })

/-- Embedding of `superblock_block_allocate`: fail when filled to capacity;
otherwise bump `block_used` and the owning heap's `mem_used`, then hand out
the popped free-list block if there is one and the watermark block (advancing
the watermark) otherwise. -/
def superblock_block_allocate (st : SBState) : Int × SBState :=
  if st.sb.block_count ≤ st.sb.block_used then (BLOCK_INVALID, st)
  else
    let sb1 : Superblock := { st.sb with block_used := st.sb.block_used + 1 }
    let mu1 : Nat := st.mem_used + sb1.block_size
    let pr := superblock_freelist_pop sb1
    if pr.1 ≠ BLOCK_INVALID then (pr.1, ⟨pr.2, mu1⟩)
    else (pr.2.next_block, ⟨{ pr.2 with next_block := pr.2.next_block + 1 }, mu1⟩)

/-- Embedding of `superblock_block_free`: push the index on the free list,
decrement `block_used` and subtract `block_size` from the heap's `mem_used`. -/
def superblock_block_free (st : SBState) (blk : Int) : SBState :=
  ⟨{ superblock_freelist_push st.sb blk with block_used := st.sb.block_used - 1 },
   st.mem_used - st.sb.block_size⟩

theorem allocate_eq_full (st : SBState) (h : st.sb.block_count ≤ st.sb.block_used) :
    superblock_block_allocate st = (BLOCK_INVALID, st) := by
  rw [superblock_block_allocate, if_pos h]

theorem allocate_eq_freelist (st : SBState) (h : ¬ st.sb.block_count ≤ st.sb.block_used)
    (hnf : st.sb.next_free ≠ BLOCK_INVALID) :
    superblock_block_allocate st =
      (st.sb.next_free,
       ⟨{ st.sb with
            block_used := st.sb.block_used + 1
            next_free := st.sb.data st.sb.next_free },
        st.mem_used + st.sb.block_size⟩) := by
  rw [superblock_block_allocate, if_neg h]
  simp only [superblock_freelist_pop]
  rw [if_neg hnf]
  simp [hnf]

theorem allocate_eq_watermark (st : SBState) (h : ¬ st.sb.block_count ≤ st.sb.block_used)
    (hnf : st.sb.next_free = BLOCK_INVALID) :
    superblock_block_allocate st =
      (st.sb.next_block,
       ⟨{ st.sb with
            block_used := st.sb.block_used + 1
            next_block := st.sb.next_block + 1 },
        st.mem_used + st.sb.block_size⟩) := by
  rw [superblock_block_allocate, if_neg h]
  simp only [superblock_freelist_pop]
  rw [if_pos hnf]
  simp

/-- C2: block-allocate on a superblock fails, returning `BLOCK_INVALID`, if and
only if `block_used = block_count`; otherwise it returns the free-list head
when the free list is non-empty, else the watermark index while advancing the
watermark, and in either success case increments `block_used` and adds
`block_size` to the owning heap's `mem_used`.  The two hypotheses are the
data-structure invariants (`block_used ≤ block_count`, a non-negative
watermark) that hold in every reachable superblock state. -/
theorem superblock_block_allocate_spec (st : SBState)
    (hbc : st.sb.block_used ≤ st.sb.block_count)
    (hnb : 0 ≤ st.sb.next_block) :
    ((superblock_block_allocate st).1 = BLOCK_INVALID ↔
       st.sb.block_used = st.sb.block_count) ∧
    (st.sb.block_used = st.sb.block_count → (superblock_block_allocate st).2 = st) ∧
    (st.sb.block_used < st.sb.block_count →
      (superblock_block_allocate st).2.sb.block_used = st.sb.block_used + 1 ∧
      (superblock_block_allocate st).2.mem_used = st.mem_used + st.sb.block_size ∧
      (st.sb.next_free ≠ BLOCK_INVALID →
        (superblock_block_allocate st).1 = st.sb.next_free ∧
        (superblock_block_allocate st).2.sb.next_block = st.sb.next_block) ∧
      (st.sb.next_free = BLOCK_INVALID →
        (superblock_block_allocate st).1 = st.sb.next_block ∧
        (superblock_block_allocate st).2.sb.next_block = st.sb.next_block + 1)) := by
  by_cases hfull : st.sb.block_count ≤ st.sb.block_used
  · rw [allocate_eq_full st hfull]
    refine ⟨by simp; omega, fun _ => rfl, fun hlt => ?_⟩
    omega
  · by_cases hnf : st.sb.next_free = BLOCK_INVALID
    · rw [allocate_eq_watermark st hfull hnf]
      refine ⟨?_, fun heq => absurd heq (by omega), fun _ => ?_⟩
      · simp only [BLOCK_INVALID] at hnb ⊢
        constructor
        · intro h1
          omega
        · intro h2
          omega
      · exact ⟨rfl, rfl, fun hc => absurd hnf hc, fun _ => ⟨rfl, rfl⟩⟩
    · rw [allocate_eq_freelist st hfull hnf]
      refine ⟨?_, fun heq => absurd heq (by omega), fun _ => ?_⟩
      · simp only [BLOCK_INVALID] at hnf ⊢
        constructor
        · intro h1
          exact absurd h1 hnf
        · intro h2
          omega
      · exact ⟨rfl, rfl, fun _ => ⟨rfl, rfl⟩, fun hc => absurd hc hnf⟩

/-- A concrete, partly used superblock state used to witness C2. -/
def sbWitnessOpen : SBState :=
  ⟨superblock_init 4096 64 (fun _ => 0) 3, 0⟩

/-- Witness for C2 at a freshly initialized class-3 superblock. -/
theorem superblock_block_allocate_spec_witness :
    (sbWitnessOpen.sb.block_used ≤ sbWitnessOpen.sb.block_count ∧
     0 ≤ sbWitnessOpen.sb.next_block) ∧
    (((superblock_block_allocate sbWitnessOpen).1 = BLOCK_INVALID ↔
       sbWitnessOpen.sb.block_used = sbWitnessOpen.sb.block_count) ∧
     (sbWitnessOpen.sb.block_used = sbWitnessOpen.sb.block_count →
       (superblock_block_allocate sbWitnessOpen).2 = sbWitnessOpen) ∧
     (sbWitnessOpen.sb.block_used < sbWitnessOpen.sb.block_count →
       (superblock_block_allocate sbWitnessOpen).2.sb.block_used =
         sbWitnessOpen.sb.block_used + 1 ∧
       (superblock_block_allocate sbWitnessOpen).2.mem_used =
         sbWitnessOpen.mem_used + sbWitnessOpen.sb.block_size ∧
       (sbWitnessOpen.sb.next_free ≠ BLOCK_INVALID →
         (superblock_block_allocate sbWitnessOpen).1 = sbWitnessOpen.sb.next_free ∧
         (superblock_block_allocate sbWitnessOpen).2.sb.next_block =
           sbWitnessOpen.sb.next_block) ∧
       (sbWitnessOpen.sb.next_free = BLOCK_INVALID →
         (superblock_block_allocate sbWitnessOpen).1 = sbWitnessOpen.sb.next_block ∧
         (superblock_block_allocate sbWitnessOpen).2.sb.next_block =
           sbWitnessOpen.sb.next_block + 1))) :=
  ⟨⟨by decide, by decide⟩,
   superblock_block_allocate_spec sbWitnessOpen (by decide) (by decide)⟩

/-- C10: invoking block-allocate on a superblock whose `block_used` equals
`block_count` returns `BLOCK_INVALID` and leaves the whole state —
`block_used`, the watermark `next_block`, the free-list head `next_free`, the
block storage and the owning heap's `mem_used` — unchanged. -/
theorem superblock_block_allocate_full_frame (st : SBState)
    (h : st.sb.block_used = st.sb.block_count) :
    superblock_block_allocate st = (BLOCK_INVALID, st) :=
  allocate_eq_full st (le_of_eq h.symm)

/-- A concrete full superblock state used to witness C10. -/
def sbWitnessFull : SBState :=
  ⟨{ size_class := 3, block_size := 8, block_count := 504, block_used := 504,
     next_block := 504, next_free := BLOCK_INVALID, data := fun _ => 0 }, 4032⟩

/-- Witness for C10 at a concrete full superblock. -/
theorem superblock_block_allocate_full_frame_witness :
    sbWitnessFull.sb.block_used = sbWitnessFull.sb.block_count ∧
    superblock_block_allocate sbWitnessFull = (BLOCK_INVALID, sbWitnessFull) :=
  ⟨by decide, superblock_block_allocate_full_frame sbWitnessFull (by decide)⟩

/-- Scenario of C8, first allocation A on a freshly initialized size-class-3
superblock carrying arbitrary initial block storage `data0` and an arbitrary
heap statistic `mu`. -/
def lifoA (data0 : Int → Int) (mu : Nat) : Int × SBState :=
  superblock_block_allocate ⟨superblock_init 4096 64 data0 3, mu⟩

/-- Scenario of C8, second allocation B. -/
def lifoB (data0 : Int → Int) (mu : Nat) : Int × SBState :=
  superblock_block_allocate (lifoA data0 mu).2

/-- Scenario of C8, the state after freeing A. -/
def lifoS3 (data0 : Int → Int) (mu : Nat) : SBState :=
  superblock_block_free (lifoB data0 mu).2 (lifoA data0 mu).1

/-- Scenario of C8, third allocation C after A was freed. -/
def lifoC (data0 : Int → Int) (mu : Nat) : Int × SBState :=
  superblock_block_allocate (lifoS3 data0 mu)

/-- C8: on one freshly initialized superblock, the sequence allocate A,
allocate B, free A, allocate C hands C exactly A's former index 0 off the
free list (LIFO reuse) — not the fresh watermark slot 2, which stays where it
was — while B keeps index 1 and the word stored in block 1 is untouched. -/
theorem superblock_lifo_reuse (data0 : Int → Int) (mu : Nat) :
    (lifoA data0 mu).1 = 0 ∧
    (lifoB data0 mu).1 = 1 ∧
    (lifoC data0 mu).1 = (lifoA data0 mu).1 ∧
    (lifoS3 data0 mu).sb.next_block = 2 ∧
    (lifoC data0 mu).2.sb.next_block = 2 ∧
    (lifoC data0 mu).2.sb.data 1 = data0 1 := by
  have hbs : superblock_blocksize 3 = 8 := by decide
  have hA : lifoA data0 mu =
      (0, ⟨{ size_class := 3, block_size := 8, block_count := 504, block_used := 1,
             next_block := 1, next_free := BLOCK_INVALID, data := data0 }, mu + 8⟩) := by
    rw [lifoA, allocate_eq_watermark _ (by simp [superblock_init, hbs])
      (by simp [superblock_init])]
    simp [superblock_init, hbs]
  have hA1 : (lifoA data0 mu).1 = 0 := by rw [hA]
  have hA2 : (lifoA data0 mu).2 =
      ⟨{ size_class := 3, block_size := 8, block_count := 504, block_used := 1,
         next_block := 1, next_free := BLOCK_INVALID, data := data0 }, mu + 8⟩ := by
    rw [hA]
  have hB : lifoB data0 mu =
      (1, ⟨{ size_class := 3, block_size := 8, block_count := 504, block_used := 2,
             next_block := 2, next_free := BLOCK_INVALID, data := data0 },
           mu + 8 + 8⟩) := by
    rw [lifoB, hA2, allocate_eq_watermark _ (by simp) (by simp)]
    simp
  have hB2 : (lifoB data0 mu).2 =
      ⟨{ size_class := 3, block_size := 8, block_count := 504, block_used := 2,
         next_block := 2, next_free := BLOCK_INVALID, data := data0 },
       mu + 8 + 8⟩ := by
    rw [hB]
  have hS3 : lifoS3 data0 mu =
      ⟨{ size_class := 3, block_size := 8, block_count := 504, block_used := 1,
         next_block := 2, next_free := 0,
         data := fun i => if i = 0 then BLOCK_INVALID else data0 i }, mu + 8⟩ := by
    rw [lifoS3, hB2, hA1]
    simp [superblock_block_free, superblock_freelist_push]
  have hC : lifoC data0 mu =
      (0, ⟨{ size_class := 3, block_size := 8, block_count := 504, block_used := 2,
             next_block := 2, next_free := BLOCK_INVALID,
             data := fun i => if i = 0 then BLOCK_INVALID else data0 i },
           mu + 8 + 8⟩) := by
    rw [lifoC, hS3, allocate_eq_freelist _ (by simp) (by simp [BLOCK_INVALID])]
    simp
  refine ⟨hA1, by rw [hB], ?_, by rw [hS3], by rw [hC], by rw [hC]; simp⟩
  rw [hC, hA1]

/-- One block-level operation on a superblock: a call to
`superblock_block_allocate` or to `superblock_block_free` with a given
index. -/
inductive SBOp where
  | alloc : SBOp
  | free (blk : Int) : SBOp

/-- One step of a single-superblock history.  Alongside the superblock state
we carry the ghost list of currently live block indices (an index becomes live
when an allocation returns it and stops being live when it is freed). -/
def sb_step (c : SBState × List Int) (op : SBOp) : SBState × List Int :=
  match op with
  | SBOp.alloc =>
      let r := superblock_block_allocate c.1
      (r.2, if r.1 = BLOCK_INVALID then c.2 else r.1 :: c.2)
  | SBOp.free blk => (superblock_block_free c.1 blk, c.2.erase blk)

/-- Run a sequence of block-level operations. -/
def sb_exec (c : SBState × List Int) (ops : List SBOp) : SBState × List Int :=
  ops.foldl sb_step c

/-- A history is valid when every freed index is live at the moment it is
freed — the precondition `superblock_block_free` is documented to rely on. -/
def sb_valid : SBState × List Int → List SBOp → Bool
  | _, [] => true
  | c, SBOp.alloc :: rest => sb_valid (sb_step c SBOp.alloc) rest
  | c, SBOp.free blk :: rest =>
      decide (blk ∈ c.2) && sb_valid (sb_step c (SBOp.free blk)) rest

/-- The free list materialized as the list of indices reached by starting at
`nf` and repeatedly reading the word stored in the current head block. -/
def freeChain (data : Int → Int) : Int → List Int → Prop
  | nf, [] => nf = BLOCK_INVALID
  | nf, b :: rest => nf = b ∧ freeChain data (data b) rest

/-- The single-superblock representation invariant: some list `F` materializes
the intrusive free list; the live indices and `F` are pairwise distinct and
together are exactly the indices below the watermark; `block_used` counts the
live blocks; and the watermark never passes `block_count`. -/
def SBInv (c : SBState × List Int) : Prop :=
  ∃ F : List Int,
    freeChain c.1.sb.data c.1.sb.next_free F ∧
    (c.2 ++ F).Nodup ∧
    (∀ b : Int, b ∈ c.2 ++ F ↔ 0 ≤ b ∧ b < c.1.sb.next_block) ∧
    c.1.sb.block_used = c.2.length ∧
    c.1.sb.next_block = ((c.2.length + F.length : Nat) : Int) ∧
    c.1.sb.next_block ≤ (c.1.sb.block_count : Int)

theorem freeChain_congr {data data' : Int → Int} :
    ∀ {nf : Int} {F : List Int}, freeChain data nf F →
      (∀ b ∈ F, data' b = data b) → freeChain data' nf F := by
  intro nf F
  induction F generalizing nf with
  | nil => intro h _; exact h
  | cons b rest ih =>
    intro h hag
    refine ⟨h.1, ?_⟩
    have hb : data' b = data b := hag b (by simp)
    rw [hb]
    exact ih h.2 fun x hx => hag x (by simp [hx])

theorem freeChain_push (data : Int → Int) (nf blk : Int) (F : List Int)
    (h : freeChain data nf F) (hnotin : blk ∉ F) :
    freeChain (fun i => if i = blk then nf else data i) blk (blk :: F) := by
  refine ⟨rfl, ?_⟩
  show freeChain (fun i => if i = blk then nf else data i)
    (if blk = blk then nf else data blk) F
  rw [if_pos rfl]
  refine freeChain_congr h ?_
  intro x hx
  have hxne : ¬ x = blk := by
    intro hxeq
    exact hnotin (hxeq ▸ hx)
  simp [hxne]

theorem sb_step_alloc_pair (st : SBState) (live : List Int) :
    sb_step (st, live) SBOp.alloc =
      ((superblock_block_allocate st).2,
       if (superblock_block_allocate st).1 = BLOCK_INVALID then live
       else (superblock_block_allocate st).1 :: live) := rfl

theorem sb_step_free_pair (st : SBState) (live : List Int) (blk : Int) :
    sb_step (st, live) (SBOp.free blk) =
      (superblock_block_free st blk, live.erase blk) := rfl

theorem sb_init_inv (pagesize header_size : Nat) (data0 : Int → Int)
    (cls mu : Nat) :
    SBInv (⟨superblock_init pagesize header_size data0 cls, mu⟩, []) := by
  refine ⟨[], rfl, by simp, ?_, rfl, by simp [superblock_init], ?_⟩
  · intro b
    constructor
    · intro hb
      exact absurd hb (by simp)
    · intro hb
      exfalso
      have h2 : b < (superblock_init pagesize header_size data0 cls).next_block := hb.2
      rw [show (superblock_init pagesize header_size data0 cls).next_block = 0
        from rfl] at h2
      omega
  · show (0 : Int) ≤ ((superblock_init pagesize header_size data0 cls).block_count : Int)
    exact Int.natCast_nonneg _

theorem sb_step_alloc_inv (st : SBState) (live : List Int)
    (h : SBInv (st, live)) : SBInv (sb_step (st, live) SBOp.alloc) := by
  obtain ⟨F, hchain, hnodup, hmem, hused, hlen, hbound⟩ := h
  replace hchain : freeChain st.sb.data st.sb.next_free F := hchain
  replace hnodup : (live ++ F).Nodup := hnodup
  replace hmem : ∀ b : Int, b ∈ live ++ F ↔ 0 ≤ b ∧ b < st.sb.next_block := hmem
  replace hused : st.sb.block_used = live.length := hused
  replace hlen : st.sb.next_block = ((live.length + F.length : Nat) : Int) := hlen
  replace hbound : st.sb.next_block ≤ (st.sb.block_count : Int) := hbound
  by_cases hfull : st.sb.block_count ≤ st.sb.block_used
  · -- capacity reached: the call fails and changes nothing
    have hstep : sb_step (st, live) SBOp.alloc = (st, live) := by
      rw [sb_step_alloc_pair, allocate_eq_full st hfull]
      simp
    rw [hstep]
    exact ⟨F, hchain, hnodup, hmem, hused, hlen, hbound⟩
  · cases F with
    | nil =>
      -- empty free list: the watermark block is handed out
      have hnf : st.sb.next_free = BLOCK_INVALID := hchain
      replace hlen : st.sb.next_block = ((live.length : Nat) : Int) := by
        rw [hlen]
        simp
      have hnbge : (0 : Int) ≤ st.sb.next_block := by
        rw [hlen]
        exact Int.natCast_nonneg _
      have hne2 : ¬ st.sb.next_block = BLOCK_INVALID := by
        intro hc
        rw [BLOCK_INVALID] at hc
        omega
      have hstep : sb_step (st, live) SBOp.alloc =
          (⟨{ st.sb with
                block_used := st.sb.block_used + 1
                next_block := st.sb.next_block + 1 },
            st.mem_used + st.sb.block_size⟩,
           st.sb.next_block :: live) := by
        rw [sb_step_alloc_pair, allocate_eq_watermark st hfull hnf]
        simp [hne2]
      rw [hstep]
      refine ⟨[], hnf, ?_, ?_, ?_, ?_, ?_⟩
      · simp only [List.append_nil]
        refine List.Nodup.cons ?_ (by simpa using hnodup)
        intro hin
        have hx := (hmem st.sb.next_block).1 (List.mem_append_left _ hin)
        omega
      · intro x
        have hx := hmem x
        simp only [List.append_nil] at hx ⊢
        simp only [List.mem_cons, hx]
        omega
      · show st.sb.block_used + 1 = live.length + 1
        omega
      · show st.sb.next_block + 1 = (((st.sb.next_block :: live).length +
          ([] : List Int).length : Nat) : Int)
        simp only [List.length_cons, List.length_nil, Nat.add_zero]
        omega
      · show st.sb.next_block + 1 ≤ (st.sb.block_count : Int)
        omega
    | cons b rest =>
      -- non-empty free list: its head is handed out
      have hnfb : st.sb.next_free = b := hchain.1
      have hb0 : 0 ≤ b := ((hmem b).1 (by simp)).1
      have hnf : st.sb.next_free ≠ BLOCK_INVALID := by
        rw [hnfb, BLOCK_INVALID]
        omega
      replace hlen : st.sb.next_block = ((live.length + (rest.length + 1) : Nat) : Int) := by
        rw [hlen]
        simp
      have hstep : sb_step (st, live) SBOp.alloc =
          (⟨{ st.sb with
                block_used := st.sb.block_used + 1
                next_free := st.sb.data st.sb.next_free },
            st.mem_used + st.sb.block_size⟩,
           st.sb.next_free :: live) := by
        rw [sb_step_alloc_pair, allocate_eq_freelist st hfull hnf]
        simp [hnf]
      rw [hstep]
      have hperm : ((st.sb.next_free :: live) ++ rest).Perm (live ++ b :: rest) := by
        rw [hnfb]
        exact List.perm_middle.symm
      refine ⟨rest, ?_, ?_, ?_, ?_, ?_, ?_⟩
      · show freeChain st.sb.data (st.sb.data st.sb.next_free) rest
        rw [hnfb]
        exact hchain.2
      · exact hperm.nodup_iff.mpr hnodup
      · intro x
        show x ∈ (st.sb.next_free :: live) ++ rest ↔ 0 ≤ x ∧ x < st.sb.next_block
        rw [hperm.mem_iff]
        exact hmem x
      · show st.sb.block_used + 1 = live.length + 1
        omega
      · show st.sb.next_block = (((st.sb.next_free :: live).length +
          rest.length : Nat) : Int)
        simp only [List.length_cons]
        omega
      · exact hbound

theorem sb_step_free_inv (st : SBState) (live : List Int) (blk : Int)
    (h : SBInv (st, live)) (hblk : blk ∈ live) :
    SBInv (sb_step (st, live) (SBOp.free blk)) := by
  obtain ⟨F, hchain, hnodup, hmem, hused, hlen, hbound⟩ := h
  replace hchain : freeChain st.sb.data st.sb.next_free F := hchain
  replace hnodup : (live ++ F).Nodup := hnodup
  replace hmem : ∀ b : Int, b ∈ live ++ F ↔ 0 ≤ b ∧ b < st.sb.next_block := hmem
  replace hused : st.sb.block_used = live.length := hused
  replace hlen : st.sb.next_block = ((live.length + F.length : Nat) : Int) := hlen
  replace hbound : st.sb.next_block ≤ (st.sb.block_count : Int) := hbound
  have hdisj : List.Disjoint live F := (List.nodup_append.mp hnodup).2.2
  have hperm : (live.erase blk ++ blk :: F).Perm (live ++ F) :=
    List.perm_middle.trans (((List.perm_cons_erase hblk).append_right F).symm)
  have hlivepos : 0 < live.length := List.length_pos.mpr (List.ne_nil_of_mem hblk)
  have hstep : sb_step (st, live) (SBOp.free blk) =
      (⟨{ st.sb with
            data := fun i => if i = blk then st.sb.next_free else st.sb.data i
            next_free := blk
            block_used := st.sb.block_used - 1 },
        st.mem_used - st.sb.block_size⟩,
       live.erase blk) := by
    rw [sb_step_free_pair]
    simp [superblock_block_free, superblock_freelist_push]
  rw [hstep]
  refine ⟨blk :: F, ?_, ?_, ?_, ?_, ?_, ?_⟩
  · exact freeChain_push st.sb.data st.sb.next_free blk F hchain
      (fun hf => hdisj hblk hf)
  · exact hperm.nodup_iff.mpr hnodup
  · intro x
    show x ∈ live.erase blk ++ blk :: F ↔ 0 ≤ x ∧ x < st.sb.next_block
    rw [hperm.mem_iff]
    exact hmem x
  · show st.sb.block_used - 1 = (live.erase blk).length
    rw [List.length_erase_of_mem hblk]
    omega
  · show st.sb.next_block = (((live.erase blk).length + (blk :: F).length : Nat) : Int)
    rw [List.length_erase_of_mem hblk]
    simp only [List.length_cons]
    omega
  · exact hbound

theorem sb_exec_inv : ∀ (ops : List SBOp) (c : SBState × List Int),
    SBInv c → sb_valid c ops = true → SBInv (sb_exec c ops) := by
  intro ops
  induction ops with
  | nil => intro c h _; exact h
  | cons op rest ih =>
    intro c h hv
    obtain ⟨st, live⟩ := c
    cases op with
    | alloc =>
      exact ih _ (sb_step_alloc_inv st live h) hv
    | free blk =>
      have hv2 : (decide (blk ∈ live) &&
          sb_valid (sb_step (st, live) (SBOp.free blk)) rest) = true := hv
      rw [Bool.and_eq_true] at hv2
      exact ih _ (sb_step_free_inv st live blk h (of_decide_eq_true hv2.1)) hv2.2

/-- C6: along any valid single-superblock history from a freshly initialized
superblock (each free hitting a live index), the ghost list of live block
indices never holds a duplicate, and every live index is a legal block index
below `block_count`. -/
theorem superblock_live_indices_unique (pagesize header_size : Nat)
    (data0 : Int → Int) (cls mu : Nat) (ops : List SBOp)
    (hv : sb_valid (⟨superblock_init pagesize header_size data0 cls, mu⟩, []) ops
      = true) :
    (sb_exec (⟨superblock_init pagesize header_size data0 cls, mu⟩, []) ops).2.Nodup ∧
    ∀ b ∈ (sb_exec (⟨superblock_init pagesize header_size data0 cls, mu⟩, []) ops).2,
      0 ≤ b ∧
      b < ((sb_exec (⟨superblock_init pagesize header_size data0 cls, mu⟩, [])
        ops).1.sb.block_count : Int) := by
  obtain ⟨F, _, hnodup, hmem, _, _, hbound⟩ :=
    sb_exec_inv ops _ (sb_init_inv pagesize header_size data0 cls mu) hv
  refine ⟨(List.nodup_append.mp hnodup).1, ?_⟩
  intro b hb
  have := (hmem b).1 (List.mem_append_left _ hb)
  exact ⟨this.1, lt_of_lt_of_le this.2 hbound⟩

/-- Witness for C6: the valid history allocate, allocate, free 0, allocate on
a fresh class-3 superblock. -/
theorem superblock_live_indices_unique_witness :
    (sb_valid (⟨superblock_init 4096 64 (fun _ => (0 : Int)) 3, 0⟩, [])
        [SBOp.alloc, SBOp.alloc, SBOp.free 0, SBOp.alloc] = true) ∧
    ((sb_exec (⟨superblock_init 4096 64 (fun _ => (0 : Int)) 3, 0⟩, [])
        [SBOp.alloc, SBOp.alloc, SBOp.free 0, SBOp.alloc]).2.Nodup ∧
     ∀ b ∈ (sb_exec (⟨superblock_init 4096 64 (fun _ => (0 : Int)) 3, 0⟩, [])
        [SBOp.alloc, SBOp.alloc, SBOp.free 0, SBOp.alloc]).2,
       0 ≤ b ∧
       b < ((sb_exec (⟨superblock_init 4096 64 (fun _ => (0 : Int)) 3, 0⟩, [])
        [SBOp.alloc, SBOp.alloc, SBOp.free 0, SBOp.alloc]).1.sb.block_count : Int)) :=
  ⟨by decide,
   superblock_live_indices_unique 4096 64 (fun _ => (0 : Int)) 3 0
     [SBOp.alloc, SBOp.alloc, SBOp.free 0, SBOp.alloc] (by decide)⟩

/-- C7: along any valid single-superblock history from a freshly initialized
superblock, the bound `0 ≤ block_used ≤ block_count` holds after every
operation. -/
theorem superblock_block_used_le_count (pagesize header_size : Nat)
    (data0 : Int → Int) (cls mu : Nat) (ops : List SBOp)
    (hv : sb_valid (⟨superblock_init pagesize header_size data0 cls, mu⟩, []) ops
      = true) :
    0 ≤ (sb_exec (⟨superblock_init pagesize header_size data0 cls, mu⟩, [])
        ops).1.sb.block_used ∧
    (sb_exec (⟨superblock_init pagesize header_size data0 cls, mu⟩, [])
        ops).1.sb.block_used ≤
      (sb_exec (⟨superblock_init pagesize header_size data0 cls, mu⟩, [])
        ops).1.sb.block_count := by
  obtain ⟨F, _, _, _, hused, hlen, hbound⟩ :=
    sb_exec_inv ops _ (sb_init_inv pagesize header_size data0 cls mu) hv
  refine ⟨Nat.zero_le _, ?_⟩
  rw [hused]
  rw [hlen] at hbound
  push_cast at hbound
  omega

/-- Witness for C7: the same concrete history as the C6 witness. -/
theorem superblock_block_used_le_count_witness :
    (sb_valid (⟨superblock_init 4096 64 (fun _ => (1 : Int)) 3, 0⟩, [])
        [SBOp.alloc, SBOp.free 0, SBOp.alloc] = true) ∧
    (0 ≤ (sb_exec (⟨superblock_init 4096 64 (fun _ => (1 : Int)) 3, 0⟩, [])
        [SBOp.alloc, SBOp.free 0, SBOp.alloc]).1.sb.block_used ∧
     (sb_exec (⟨superblock_init 4096 64 (fun _ => (1 : Int)) 3, 0⟩, [])
        [SBOp.alloc, SBOp.free 0, SBOp.alloc]).1.sb.block_used ≤
       (sb_exec (⟨superblock_init 4096 64 (fun _ => (1 : Int)) 3, 0⟩, [])
        [SBOp.alloc, SBOp.free 0, SBOp.alloc]).1.sb.block_count) :=
  ⟨by decide,
   superblock_block_used_le_count 4096 64 (fun _ => (1 : Int)) 3 0
     [SBOp.alloc, SBOp.free 0, SBOp.alloc] (by decide)⟩

/-- The fields of `struct HEAP_T` visible to the context-level code: the
table index, the two statistics, and the fullness bins, each bin holding a
list of superblocks (the C code uses an intrusive doubly linked list).  The C
array `bins` has `ALLOC_HOARD_FULLNESS_GROUPS` entries, but the scan loop in
`context_malloc` also reads the slot one past the end, so the model's bins
are a total function on indices. -/
structure HeapModel where
  index : Nat
  mem_used : Nat
  mem_allocated : Nat
  bins : Nat → List Superblock

/-- Embedding of `heap_full`: `mem_used >= mem_allocated`. -/
def heap_full (heap : HeapModel) : Bool :=
  decide (heap.mem_allocated ≤ heap.mem_used)

/-- The inner loop of the superblock scan in `context_malloc`: walk one bin
and stop at the first superblock whose size class matches the request and
which still has spare capacity. -/
def scan_bin (sizecls : Nat) : List Superblock → Option Superblock
  | [] => none
  | sb :: rest =>
    if sb.size_class = sizecls ∧ sb.block_used < sb.block_count then some sb
    else scan_bin sizecls rest

/-- The sequence of bin indices visited by the outer loop of
`context_malloc`: `for(group = ALLOC_HOARD_FULLNESS_GROUPS; group >= 1;
group--)` visits `GROUPS, GROUPS-1, ..., 1`. -/
def context_malloc_groups : List Nat :=
  ((List.range ALLOC_HOARD_FULLNESS_GROUPS).reverse).map (fun i => i + 1)

/-- The outer loop of the superblock scan in `context_malloc`: try the bins
in the given group order and return the first hit. -/
def scan_groups (bins : Nat → List Superblock) (sizecls : Nat) :
    List Nat → Option Superblock
  | [] => none
  | g :: gs =>
    match scan_bin sizecls (bins g) with
    | some sb => some sb
    | none => scan_groups bins sizecls gs

/-- The whole superblock scan of `context_malloc` over a heap's bins. -/
def context_malloc_scan (bins : Nat → List Superblock) (sizecls : Nat) :
    Option Superblock :=
  scan_groups bins sizecls context_malloc_groups

/-- The value `context_malloc` produces: either the address of a block inside
a superblock (modelled as the superblock plus the block index returned by
`superblock_block_allocate`), or the marker for control falling off the end
of the function without executing any `return` statement — in C the caller
then receives an undefined value. -/
inductive CMResult where
  | addr (sb : Superblock) (blk : Int) : CMResult
  | undef : CMResult

/-- Embedding of `context_malloc` (return value): scan the heap's bins for a
usable superblock; on a hit, allocate a block from it and return its address.
On a miss the source reaches `else if(!heap_full(glob)) { ... }` and
`else { ... }` whose bodies are empty placeholder comments with no `return`,
so whichever way the `heap_full` guard goes, control falls off the end of the
non-void function: the result is the undefined-return marker. -/
def context_malloc (bins : Nat → List Superblock) (glob : HeapModel)
    (sz : Nat) : CMResult :=
  match context_malloc_scan bins (util_sizeclass sz) with
  | some sb => CMResult.addr sb (superblock_block_allocate ⟨sb, 0⟩).1
  | none =>
    if !heap_full glob then CMResult.undef else CMResult.undef

/-- An empty size-class-3 superblock sitting in the emptiest fullness bin. -/
def sbBinZero : Superblock :=
  { size_class := 3, block_size := 8, block_count := 504, block_used := 0,
    next_block := 0, next_free := BLOCK_INVALID, data := fun _ => 0 }

/-- A heap bin table whose only superblock lives in bin 0. -/
def binsOnlyZero : Nat → List Superblock :=
  fun g => if g = 0 then [sbBinZero] else []

/-- C3 evidence: the scan loop visits bin indices `GROUPS` down to `1` — it
reads one slot past the end of the `bins` array and never visits bin 0, the
emptiest group — so a request whose only matching superblock sits in bin 0
comes back empty-handed even though `scan_bin` would select that superblock.
The claimed order is `GROUPS-1` down to `0`. -/
theorem context_malloc_scan_skips_bin_zero :
    context_malloc_groups = [4, 3, 2, 1] ∧
    (0 ∉ context_malloc_groups ∧
     ALLOC_HOARD_FULLNESS_GROUPS ∈ context_malloc_groups) ∧
    context_malloc_scan binsOnlyZero 3 = none ∧
    scan_bin 3 (binsOnlyZero 0) = some sbBinZero := by
  refine ⟨by decide, ⟨by decide, by decide⟩, rfl, rfl⟩

/-- A global heap with spare capacity (`heap_full` is false). -/
def globSpare : HeapModel :=
  { index := 0, mem_used := 0, mem_allocated := 4096, bins := fun _ => [] }

/-- A global heap that is full (`heap_full` is true). -/
def globExhausted : HeapModel :=
  { index := 0, mem_used := 4096, mem_allocated := 4096, bins := fun _ => [] }

/-- C5 evidence: when the requesting heap has no usable superblock (here all
bins are empty), `context_malloc` does not return a null indicator: both the
borrow-from-global branch and the carve-new-superblock branch are empty and
control falls off the end of the function, so the caller receives an
undefined value — whether or not the global heap still has capacity. -/
theorem context_malloc_missing_return :
    context_malloc (fun _ => []) globSpare 5 = CMResult.undef ∧
    context_malloc (fun _ => []) globExhausted 5 = CMResult.undef :=
  ⟨rfl, rfl⟩

/-- Embedding of the processor-heap count set up by `context_init`:
`getNumProcessors() * ALLOC_HOARD_HEAP_CPU_FACTOR`. -/
def context_heap_count (processors : Nat) : Nat :=
  processors * ALLOC_HOARD_HEAP_CPU_FACTOR

/-- The heap-table indices `context_init` initializes:
`heap_init(&ctx->heap_table[0])` followed by
`for(i = 1; i < ctx->heap_count; i++) heap_init(&ctx->heap_table[i])`,
that is, `0, 1, ..., heap_count - 1`. -/
def context_init_heaps (processors : Nat) : List Nat :=
  0 :: (List.range (context_heap_count processors)).drop 1

/-- Embedding of `context_heap`: the table index of the heap returned for a
thread identity, `1 + (threadid % ctx->heap_count)`. -/
def context_heap_index (processors : Nat) (threadid : Nat) : Nat :=
  1 + threadid % context_heap_count processors

/-- C4 evidence: with one processor the heap count is 2, `context_heap` maps
thread identity 1 to table slot `1 + (1 % 2) = 2`, and slot 2 is not among
the slots `context_init` initialized (it initializes `0` and `1` only: the
loop stops at `i < heap_count` although `context_heap` returns indices up to
`heap_count`).  The hashing itself is stable and never returns the global
heap slot 0, as claimed. -/
theorem context_heap_out_of_table_setup :
    context_heap_count 1 = 2 ∧
    context_heap_index 1 1 = 2 ∧
    context_heap_index 1 1 ∉ context_init_heaps 1 ∧
    context_init_heaps 1 = [0, 1] ∧
    (∀ threadid : Nat, context_heap_index 1 threadid ≠ 0) := by
  refine ⟨by decide, by decide, by decide, by decide, ?_⟩
  intro threadid
  simp [context_heap_index]

/-- The full allocator context: the heap table together with the base address
superblocks are carved from, as set up by `context_init`. -/
structure ContextModel where
  blocks_base : Int
  heap_count : Nat
  heap_table : Nat → HeapModel

/-- Embedding of `mm_free`: its body is `(void)ptr;` — nothing else — so it
returns with the context, every heap and every superblock exactly as they
were. -/
def mm_free (ctx : ContextModel) (ptr : Int) : ContextModel := ctx

/-- C9: for every address argument, `mm_free` is a no-op: the context, the
whole heap table (each heap's statistics and bins, and with them every
superblock's fields) are returned unchanged. -/
theorem mm_free_noop : ∀ (ctx : ContextModel) (ptr : Int),
    mm_free ctx ptr = ctx ∧
    (∀ h : Nat, (mm_free ctx ptr).heap_table h = ctx.heap_table h) ∧
    (mm_free ctx ptr).blocks_base = ctx.blocks_base ∧
    (mm_free ctx ptr).heap_count = ctx.heap_count :=
  fun _ _ => ⟨rfl, fun _ => rfl, rfl, rfl⟩

end Hoard
